import Mathlib

/-!
Verification of the translation and reconciliation engine of
`gherkin2robotframework` (src/gherkin2robotframework/__main__.py).

The Python source is shallowly embedded: the global mutable accumulators
(`settings_lines`, `test_cases_lines`, `keywords_lines`, `seen_steps`,
`background_available`) become an explicit state record, Python exceptions
(`raise`, `NameError`, `IndexError`) become `Except String`, and filesystem
effects of `generate_robot_script_resource` become an explicit result record
(the report printed to stdout, and the file content written when the resource
is created).  Python string operations are modelled on `List Char` so that all
definitions evaluate inside the kernel.
-/

namespace G2RF

/-! ### Python string primitives, modelled on `List Char` -/

/-- Python `str.strip()`: drop whitespace from both ends. -/
def stripChars (l : List Char) : List Char :=
  ((l.dropWhile Char.isWhitespace).reverse.dropWhile Char.isWhitespace).reverse

/-- Python `str.strip()` on `String`. -/
def pyStrip (s : String) : String := String.mk (stripChars s.data)

/-- Helper for `pySplitChar`: accumulates the current field (reversed). -/
def splitCharAux (sep : Char) : List Char → List Char → List String
  | acc, [] => [String.mk acc.reverse]
  | acc, c :: rest =>
    if c = sep then String.mk acc.reverse :: splitCharAux sep [] rest
    else splitCharAux sep (c :: acc) rest

/-- Python `str.split(sep)` for a one-character separator
(`''.split(sep) = ['']`, trailing separator yields a trailing `''`). -/
def pySplitChar (sep : Char) (s : String) : List String := splitCharAux sep [] s.data

/-- Python `str.startswith(pre)`. -/
def startsWithStr (s pre : String) : Bool := pre.data.isPrefixOf s.data

/-! ### Line model and localization provider -/

/-- A generated output line: either an opaque text line or a list of fields
joined with `FIELD_SEP` on emission (`write_to_script`). -/
inductive Line where
  | str (s : String)
  | fields (fs : List String)
deriving Repr, DecidableEq

/-- `FIELD_SEP = "    "` from the source. -/
def FIELD_SEP : String := "    "

/-- The Localization Provider (`from .translation import tr`), an external
collaborator per the spec (its module is not under src/).  `key k` models the
one-argument call `tr(k)`; `keyD k d` models `tr(k, d)`. -/
structure Tr where
  key : String → String
  keyD : String → String → String

/-- Modelled from the spec: the localization table of the `.translation`
module is not under src/; per the spec the provider is a "pure lookup
`tr(key, default) -> string`" which "falls back to the literal keyword when
no translation exists".  This is the English table used by the generated
Robot Framework artifacts. -/
def enTable : String → Option String := fun k =>
  if k = "settings_section" then some "*** Settings ***"
  else if k = "testcases_section" then some "*** Test Cases ***"
  else if k = "keywords_section" then some "*** Keywords ***"
  else if k = "arguments" then some "Arguments"
  else if k = "documentation" then some "Documentation"
  else if k = "background" then some "Background"
  else if k = "scenario" then some "Scenario"
  else if k = "scenariooutline" then some "Scenario Outline"
  else if k = "template" then some "Template"
  else if k = "tags" then some "Tags"
  else if k = "testtags" then some "Test Tags"
  else if k = "library" then some "Library"
  else if k = "metadata" then some "Metadata"
  else if k = "resource" then some "Resource"
  else none

/-- The English localization provider instance. -/
def trEn : Tr :=
  { key := fun k => (enTable k).getD k
    keyD := fun k d => (enTable k).getD d }

/-! ### The parsed Gherkin tree consumed by the engine -/

/-- A doc-string step argument (`step['docString']`). -/
structure DocString where
  content : String
deriving Repr, DecidableEq

/-- One table cell (`cell['value']`). -/
structure Cell where
  value : String
deriving Repr, DecidableEq

/-- One table row (`row['cells']`). -/
structure Row where
  cells : List Cell
deriving Repr, DecidableEq

/-- A data-table step argument (`step['dataTable']`). -/
structure DataTable where
  rows : List Row
deriving Repr, DecidableEq

/-- A tag node (`tag['name']`, including the leading `@`). -/
structure Tag where
  name : String
deriving Repr, DecidableEq

/-- A step node `{keyword, text, docString?, dataTable?}`. -/
structure GStep where
  keyword : String
  text : String
  docString : Option DocString := none
  dataTable : Option DataTable := none
deriving Repr, DecidableEq

/-- An examples block of a scenario outline (`scenario['examples'][i]`);
`locationLine` is `example['location']['line']`. -/
structure GExample where
  name : String
  locationLine : Nat
  description : Option String := none
  tags : List Tag := []
  tableHeader : Row
  tableBody : List Row
deriving Repr, DecidableEq

/-- A scenario node `{keyword, name, description?, tags[], steps[], examples[]}`. -/
structure Scenario where
  keyword : String
  name : String
  description : Option String := none
  tags : List Tag := []
  steps : List GStep
  examples : List GExample := []
deriving Repr, DecidableEq

/-- The global mutable accumulators of the source, as an explicit state. -/
structure GState where
  settings_lines : List Line := []
  test_cases_lines : List Line := []
  keywords_lines : List Line := []
  seen_steps : List (String × Option String) := []
  background_available : Bool := false
deriving Repr, DecidableEq

/-- The Step Registry type: `seen_steps`, an insertion-ordered map from
canonical step text to the optional argument variable. -/
abbrev SeenSteps := List (String × Option String)

/-! ### Step Renderer (`add_step`) and Table Transformer -/

/-- `text.replace('<', '${')`: a one-character-needle Python `str.replace`
substitutes every occurrence, i.e. expands each matching character. -/
def pyReplaceOpen (l : List Char) : List Char :=
  l.flatMap fun c => if c = '<' then ['$', '{'] else [c]

/-- `.replace('>', '}')`, the second replacement in `add_step`. -/
def pyReplaceClose (l : List Char) : List Char :=
  l.flatMap fun c => if c = '>' then ['}'] else [c]

/-- `step['text'].replace('<', '${').replace('>', '}')` from `add_step`. -/
def rewriteText (s : String) : String :=
  String.mk (pyReplaceClose (pyReplaceOpen s.data))

/-- The lines appended by `process_docstring`: the `Catenate` header, then one
continuation line per source line, blank lines becoming `${EMPTY}`
(`'SEPARATOR=\\n'` in the source is the literal two characters `\` `n`). -/
def docStringLines (content : String) : List Line :=
  Line.fields ["", "${DocString}=", "Catenate", "SEPARATOR=\\n"] ::
  (pySplitChar '\n' content).map fun line =>
    if line = "" then Line.fields ["", "...", "${EMPTY}"]
    else Line.fields ["", "...", line]

/-- `process_docstring(output, docstring)`: appends the construction lines and
returns the fixed variable reference `${DocString}`. -/
def process_docstring (output : List Line) (ds : DocString) : List Line × String :=
  (output ++ docStringLines ds.content, "${DocString}")

/-- `process_datatable_rows`: a table as a list of rows of cell values. -/
def process_datatable_rows (rows : List Row) : List (List String) :=
  rows.map fun r => r.cells.map (·.value)

/-- The lines appended by `generate_datatable_as_list_of_dict` for header row
`dt0` and data rows `rest`: Create List, FOR header, one continuation line per
data row, Create Dictionary, Append To List, END. -/
def datatableLines (dt0 : List String) (rest : List (List String)) : List Line :=
  [Line.fields ["", "${DataTable}=", "Create List"],
   Line.fields (["", "FOR"] ++ dt0.map (fun col => "$\x7b" ++ col ++ "\x7d") ++ ["IN"])] ++
  rest.map (fun row => Line.fields (["", "..."] ++ row)) ++
  [Line.fields (["", "", "${entry}=", "Create Dictionary"] ++
      dt0.map (fun col => col ++ "=$\x7b" ++ col ++ "\x7d")),
   Line.fields ["", "", "Append To List", "${DataTable}", "${entry}"],
   Line.fields ["", "END"]]

/-- `generate_datatable_as_list_of_dict(output, dt)`: `dt[0]` raises
`IndexError` on an empty table; otherwise the construction lines are appended
and the fixed reference `@{DataTable}` is returned. -/
def generate_datatable_as_list_of_dict (output : List Line) (dt : List (List String)) :
    Except String (List Line × String) :=
  match dt with
  | [] => .error "IndexError: list index out of range"
  | dt0 :: rest => .ok (output ++ datatableLines dt0 rest, "@{DataTable}")

/-- `process_datatable(output, datatable)`. -/
def process_datatable (output : List Line) (dtab : DataTable) :
    Except String (List Line × String) :=
  generate_datatable_as_list_of_dict output (process_datatable_rows dtab.rows)

/-- The argument-handling part of `add_step`: `if 'docString' in step: ...
elif 'dataTable' in step: ...`, returning the extended output lines and the
`argument_variable` (`None` when the step carries neither). -/
def argLinesAndVar (output : List Line) (step : GStep) :
    Except String (List Line × Option String) :=
  match step.docString with
  | some ds => .ok ((process_docstring output ds).1, some (process_docstring output ds).2)
  | none =>
    match step.dataTable with
    | some dtab =>
      match process_datatable output dtab with
      | .error e => .error e
      | .ok r => .ok (r.1, some r.2)
    | none => .ok (output, none)

/-- `add_step(output, step)`.  Note that the source assigns
`resource_keyword = text` in both branches of the `'* '` test: the Step
Registry key is always the placeholder-rewritten text, while the emitted call
line uses the translated-verb-prefixed `keyword` for non-continuation steps. -/
def add_step (tr : Tr) (output : List Line) (seen : SeenSteps) (step : GStep) :
    Except String (List Line × SeenSteps) :=
  let text := rewriteText step.text
  let kwrk : String × String :=
    if step.keyword = "* " then (text, text)
    else (tr.keyD step.keyword step.keyword ++ text, text)
  match argLinesAndVar output step with
  | .error e => .error e
  | .ok (output', argument_variable) =>
    let seen' :=
      if seen.any (fun p => p.1 == kwrk.2) then seen
      else seen ++ [(kwrk.2, argument_variable)]
    match argument_variable with
    | some v => .ok (output' ++ [Line.fields ["", kwrk.1, v]], seen')
    | none => .ok (output' ++ [Line.fields ["", kwrk.1]], seen')

/-! ### Resource Reconciler

`_read_keywords_from_resource` derives `re.sub(r'\$\{[0-9a-zA-Z_]+\}',
'(.*)', keyword)` for each keyword of the existing resource, and
`generate_robot_script_resource` tests each registry entry with string
equality or `re.match` (which anchors at the start only).  The regex is
modelled by segment lists: `(.*)` becomes a wildcard, every other pattern
character matches itself literally (exact for patterns free of further regex
metacharacters, which is the shape the tool both writes and documents). -/

/-- `[0-9a-zA-Z_]`, the placeholder identifier class of the `re.sub` call. -/
def isIdentChar (c : Char) : Bool := c.isAlphanum || c = '_'

/-- `re.sub(r'\$\{[0-9a-zA-Z_]+\}', '(.*)', ·)` on a character list: each
`${ident}` placeholder becomes the four characters `(.*)`; on a failed match
the scan advances one character, as the regex engine does.  The scan consumes
at least one character per step, so it is driven by a fuel argument
instantiated with the list length (the fuel-exhausted arm is unreachable
then). -/
def substAuxF : Nat → List Char → List Char
  | 0, l => l
  | _ + 1, [] => []
  | fuel + 1, c :: rest =>
    if c = '$' ∧ rest.head? = some '{' then
      let rest2 := rest.tail
      let ident := rest2.takeWhile isIdentChar
      if ident ≠ [] ∧ (rest2.drop ident.length).head? = some '}' then
        '(' :: '.' :: '*' :: ')' :: substAuxF fuel (rest2.drop (ident.length + 1))
      else c :: substAuxF fuel rest
    else c :: substAuxF fuel rest

/-- `re.sub(r'\$\{[0-9a-zA-Z_]+\}', '(.*)', ·)` on a `String`. -/
def substPlaceholders (s : String) : String := String.mk (substAuxF s.data.length s.data)

/-- One compiled-pattern segment: a literal character or the `(.*)` wildcard. -/
inductive Seg where
  | lc (c : Char)
  | wild
deriving Repr, DecidableEq

/-- Compiling a pattern string: each `(.*)` becomes a wildcard segment, every
other character a literal segment (fuel-driven scan, one character or one
wildcard consumed per step). -/
def toSegsF : Nat → List Char → List Seg
  | 0, l => l.map Seg.lc
  | _ + 1, [] => []
  | fuel + 1, c :: rest =>
    if c = '(' ∧ rest.take 3 = ['.', '*', ')'] then
      Seg.wild :: toSegsF fuel (rest.drop 3)
    else Seg.lc c :: toSegsF fuel rest

/-- Compiling a pattern string into segments. -/
def toSegs (l : List Char) : List Seg := toSegsF l.length l

/-- All suffixes of a character list, longest first. -/
def suffixes : List Char → List (List Char)
  | [] => [[]]
  | c :: s => (c :: s) :: suffixes s

/-- `re.match` semantics for segment patterns: the pattern must match a
prefix of the subject (Python `re.match` anchors only at the start); a
wildcard `(.*)` matches any character sequence, i.e. the remaining pattern
must match some suffix of the remaining subject. -/
def segsMatch : List Seg → List Char → Bool
  | [], _ => true
  | Seg.lc c :: ps, s =>
    match s with
    | [] => false
    | d :: s' => c == d && segsMatch ps s'
  | Seg.wild :: ps, s => (suffixes s).any fun t => segsMatch ps t

/-- `re.match(re.compile(pat), s)` as a Boolean, for the pattern strings this
tool derives. -/
def reMatch (pat s : String) : Bool := segsMatch (toSegs pat.data) s.data

/-- One iteration of the line loop of `_read_keywords_from_resource`: skip
blank lines, switch into the Keywords section at a line starting with
`*** Keywords ***` (or its localized form), and collect each unindented line
as `(keyword, derived regex pattern)`. -/
def readKeywordsStep (tr : Tr) (acc : List (String × String) × Bool) (line : String) :
    List (String × String) × Bool :=
  if pyStrip line = "" then acc
  else if acc.2 then
    if !(startsWithStr line " " || startsWithStr line "\t") then
      let keyword := pyStrip line
      (acc.1 ++ [(keyword, substPlaceholders keyword)], acc.2)
    else acc
  else
    if startsWithStr line "*** Keywords ***" || startsWithStr line (tr.key "keywords_section") then
      (acc.1, true)
    else acc

/-- `_read_keywords_from_resource(fn)`, over the lines of the existing
resource file. -/
def _read_keywords_from_resource (tr : Tr) (lines : List String) : List (String × String) :=
  (lines.foldl (readKeywordsStep tr) ([], false)).1

/-- The per-entry match test of `generate_robot_script_resource`: `ff` is set
when the registry key equals an existing keyword or `re.match`es its derived
pattern. -/
def isImplemented (kw : List (String × String)) (k : String) : Bool :=
  kw.any fun t => k == t.1 || reMatch t.2 k

/-- The lines printed for one missing keyword: the keyword text, an arguments
line when an argument variable was produced, and the failing stub body. -/
def missingStubReport (tr : Tr) (k : String) (arg : Option String) : List String :=
  [k] ++
  (match arg with
   | some a => [String.intercalate FIELD_SEP ["", "[" ++ tr.key "arguments" ++ "]", a]]
   | none => []) ++
  [String.intercalate FIELD_SEP ["", "Fail", "Keyword \"" ++ k ++ "\" Not Implemented Yet"]]

/-- The report printed by the reconcile branch: nothing when every registry
entry is implemented, otherwise a header, the stub lines of each missing
entry in registry order, and a trailing blank print. -/
def reconcileReport (tr : Tr) (fn : String) (kw : List (String × String))
    (seen : SeenSteps) : List String :=
  if seen.any (fun p => ¬ isImplemented kw p.1) then
    ("\nMissing keywords for: " ++ fn ++ "\n") ::
    (seen.foldl
      (fun acc p => if isImplemented kw p.1 then acc else acc ++ missingStubReport tr p.1 p.2)
      []) ++
    ["\n"]
  else []

/-- The body of the stub-writing loop of the create branch (`for k, v in
seen_steps.items(): ...`). -/
def stubLoopBody (tr : Tr) (acc : List Line) (p : String × Option String) : List Line :=
  acc ++ [Line.str p.1] ++
  (match p.2 with
   | some v => [Line.fields ["", "[" ++ tr.key "arguments" ++ "]", v]]
   | none => []) ++
  [Line.fields ["", "Fail", "Keyword \"" ++ p.1 ++ "\" Not Implemented Yet"], Line.str ""]

/-- The fixed header of a newly created resource file: optional language
line, Settings section, optional `resource.settings` inclusion (modelled as
raw lines), documentation and library lines, and the Keywords section header
(written with its leading newline, as in the source). -/
def resourceHeaderLines (tr : Tr) (lang : String) (resourceSettings : Option (List String))
    (timestamp : String) : List Line :=
  (if lang ≠ "en" then [Line.str ("Language: " ++ lang ++ "\n")] else []) ++
  [Line.str (tr.key "settings_section")] ++
  (match resourceSettings with
   | some ls => ls.map Line.str ++ [Line.str ""]
   | none => []) ++
  [Line.fields [tr.key "documentation", "Generated by",
     "_gherkin2robotframework on " ++ timestamp ++ "_"],
   Line.fields [tr.key "library", "Collections"],
   Line.str ("\n" ++ tr.key "keywords_section")]

/-- The full content written when the resource file is created. -/
def createResourceLines (tr : Tr) (lang : String) (resourceSettings : Option (List String))
    (timestamp : String) (seen : SeenSteps) : List Line :=
  resourceHeaderLines tr lang resourceSettings timestamp ++
  seen.foldl (stubLoopBody tr) []

/-- The observable effects of `generate_robot_script_resource`: the report
printed to stdout, and the file content written (only when the resource file
did not exist). -/
structure ResourceResult where
  report : List String
  written : Option (List Line)
deriving Repr, DecidableEq

/-- `generate_robot_script_resource(path, step_definitions_resource)`.
`existing` is `some lines` when `os.path.exists(fn)` holds, carrying the
lines of the existing file; `resourceSettings` models the optional
`resource.settings` file; `lang`/`timestamp` model `get_language()` and
`datetime.now().isoformat()`. -/
def generate_robot_script_resource (tr : Tr) (fn : String) (existing : Option (List String))
    (lang : String) (resourceSettings : Option (List String)) (timestamp : String)
    (seen : SeenSteps) : ResourceResult :=
  match existing with
  | some lines =>
    { report := reconcileReport tr fn (_read_keywords_from_resource tr lines) seen
      written := none }
  | none =>
    { report := []
      written := some (createResourceLines tr lang resourceSettings timestamp seen) }

/-! ### Feature Translator: scenario-outline expansion -/

/-- `make_empty`. -/
def make_empty (x : String) : String := if x = "" then "${EMPTY}" else x

/-- `re.findall('<([a-zA-Z0-9]+)>', text)`: the placeholder names referenced
in a step text, in scan order (fuel-driven scan, at least one character
consumed per step). -/
def findVarsF : Nat → List Char → List String
  | 0, _ => []
  | _ + 1, [] => []
  | fuel + 1, c :: rest =>
    if c = '<' then
      let ident := rest.takeWhile Char.isAlphanum
      if ident ≠ [] ∧ (rest.drop ident.length).head? = some '>' then
        String.mk ident :: findVarsF fuel (rest.drop (ident.length + 1))
      else findVarsF fuel rest
    else findVarsF fuel rest

/-- The placeholder names referenced in a step text. -/
def findVars (l : List Char) : List String := findVarsF l.length l

/-- The `varNames` collected over all steps of the outline.  The source
wraps this in `set(...)`, which only affects the iteration order of the
membership check below; it is modelled in scan order. -/
def collectVars (steps : List GStep) : List String :=
  steps.flatMap fun s => findVars s.text.data

/-- The test-case name computed in the examples loop (`scenario['name'] +
': ' + example['name']`, or the source-line fallback).  The source computes
this value but the append that would emit it is commented out. -/
def outlineTestCaseName (scName : String) (ex : GExample) : String :=
  if ex.name ≠ "" then scName ++ ": " ++ ex.name
  else scName ++ " example line " ++ toString ex.locationLine

/-- `_add_test_case_documentation` / `_add_keyword_documentation` (identical
up to the target section): first stripped line after `[Documentation]`, the
remaining lines as stripped `...` continuations; empty descriptions produce
nothing. -/
def documentationLines (tr : Tr) (description : String) : List Line :=
  if description = "" then []
  else
    let d := pySplitChar '\n' (pyStrip description)
    Line.fields ["", "[" ++ tr.key "documentation" ++ "]", d.headD ""] ::
    (d.drop 1).map fun doc => Line.fields ["", "...", pyStrip doc]

/-- `process_tags(tags)`: one `[Tags]` line with each tag name stripped of
its leading `@`. -/
def tagsLine (tr : Tr) (tags : List Tag) : Line :=
  Line.fields (["", "[" ++ tr.key "tags" ++ "]"] ++ tags.map fun t => t.name.drop 1)

/-- Python-dict insertion (`header_col[v] = col_nr`): overwrite an existing
binding, else append. -/
def dictInsert (d : List (String × Nat)) (k : String) (v : Nat) : List (String × Nat) :=
  if d.any (fun p => p.1 == k) then d.map (fun p => if p.1 == k then (k, v) else p)
  else d ++ [(k, v)]

/-- Python-dict lookup (`header_col[a]`). -/
def dictGet (d : List (String × Nat)) (k : String) : Option Nat :=
  (d.find? (fun p => p.1 == k)).map (·.2)

/-- The `header_col` dict built in the per-example loop (the source fills
`header_col` and `header` in one pass over the header cells; the `header`
list itself is `headerOf`). -/
def buildHeaderCol (header : List String) : List (String × Nat) :=
  (header.foldl (fun (acc : List (String × Nat) × Nat) v =>
    (dictInsert acc.1 v acc.2, acc.2 + 1)) ([], 0)).1

/-- The header-cell values of an examples block, in column order. -/
def headerOf (ex : GExample) : List String :=
  ex.tableHeader.cells.map (·.value)

/-- One data row of the templated test case:
`example_row['cells'][header_col[a]]['value']` for each `a` in `header`
(raising `IndexError` when a row is shorter than the header). -/
def rowArgs (header : List String) (header_col : List (String × Nat)) (row : Row) :
    Except String (List String) :=
  header.foldlM
    (fun args a =>
      match dictGet header_col a with
      | none => .error "KeyError"
      | some i =>
        match row.cells.get? i with
        | none => .error "IndexError: list index out of range"
        | some c => .ok (args ++ [c.value]))
    []

/-- The per-example body of the loop in `process_scenario_outline`
(source lines 438-481), acting on `test_cases_lines` and returning the
example's header.  The `raise RuntimeWarning(...)` of the source is a raised
exception and is modelled as an error. -/
def processOneExample (tr : Tr) (scName : String) (scTags : List Tag)
    (varNames : List String) (tc : List Line) (ex : GExample) :
    Except String (List Line × List String) :=
  let _tcn := outlineTestCaseName scName ex
  let tc := match ex.description with
            | some d => tc ++ documentationLines tr d
            | none => tc
  let tags := scTags ++ ex.tags
  let tc := if tags ≠ [] then tc ++ [tagsLine tr tags] else tc
  let tc := tc ++ [Line.fields ["", "[" ++ tr.key "template" ++ "]",
      (pySplitChar ',' (tr.key "scenariooutline")).headD "" ++ " " ++ scName]]
  let header := headerOf ex
  let header_col := buildHeaderCol header
  match varNames.find? (fun v => !(header.contains v)) with
  | some v => .error ("Example " ++ ex.name ++ " missing column " ++ v)
  | none =>
    match ex.tableBody.foldlM
        (fun tc row => (rowArgs header header_col row).map
          (fun args => tc ++ [Line.fields ("" :: args.map make_empty)])) tc with
    | .error e => .error e
    | .ok tc => .ok (tc ++ [Line.str ""], header)

/-- The examples loop, threading `test_cases_lines` and the loop variable
`header` (which, as in Python, survives the loop: `none` models the name
being unbound when there is no examples block). -/
def processExamples (tr : Tr) (scName : String) (scTags : List Tag)
    (varNames : List String) :
    List Line → Option (List String) → List GExample →
    Except String (List Line × Option (List String))
  | tc, hdr, [] => .ok (tc, hdr)
  | tc, _hdr, ex :: rest =>
    match processOneExample tr scName scTags varNames tc ex with
    | .error e => .error e
    | .ok (tc', h) => processExamples tr scName scTags varNames tc' (some h) rest

/-- The function folded over the outline's steps for the synthesized
keyword's body: `add_step(keywords_lines, step)` threading the lines and the
Step Registry. -/
def addStepFold (tr : Tr) (p : List Line × SeenSteps) (step : GStep) :
    Except String (List Line × SeenSteps) :=
  add_step tr p.1 p.2 step

/-- The synthesized keyword name `tr("scenariooutline").split(',')[0] + ' ' +
scenario['name']`. -/
def outlineKeywordName (tr : Tr) (scName : String) : String :=
  (pySplitChar ',' (tr.key "scenariooutline")).headD "" ++ " " ++ scName

/-- The `[Arguments]` line of the synthesized keyword, for a given header. -/
def argumentsLine (tr : Tr) (header : List String) : Line :=
  Line.fields (["", "[" ++ tr.key "arguments" ++ "]"] ++
    header.map fun arg => "$\x7b" ++ arg ++ "\x7d")

/-- `process_scenario_outline(scenario)`.  After the examples loop the source
reads the loop variable `header`; with no examples block that name is unbound
and Python raises `NameError` (after having appended the keyword-name and
documentation lines, which the raised exception makes unobservable). -/
def process_scenario_outline (tr : Tr) (st : GState) (sc : Scenario) :
    Except String GState :=
  let varNames := collectVars sc.steps
  match processExamples tr sc.name sc.tags varNames st.test_cases_lines none sc.examples with
  | .error e => .error e
  | .ok (tc, hdrOpt) =>
    let kws := st.keywords_lines ++ [Line.str (outlineKeywordName tr sc.name)]
    let kws := match sc.description with
               | some d => kws ++ documentationLines tr d
               | none => kws
    match hdrOpt with
    | none => .error "NameError: name header is not defined"
    | some header =>
      let kws := kws ++ [argumentsLine tr header]
      let kws := if st.background_available then kws ++ [Line.fields ["", tr.key "background"]]
                 else kws
      match sc.steps.foldlM (addStepFold tr) (kws, st.seen_steps) with
      | .error e => .error e
      | .ok (kws, seen) =>
        .ok { st with
                test_cases_lines := tc
                keywords_lines := kws ++ [Line.str ""]
                seen_steps := seen }

/-! ### Spec-side definitions (for refinement comparison only)

These definitions follow the words of the specification, not the source;
they exist to be compared with the source-derived definitions above. -/

/-- Modelled from the spec's words ("Replace `<x>` with `${x}` in `text`",
"each placeholder occurrence `<x>` rewritten to `${x}` and all other
characters unchanged"): only well-formed `<ident>` placeholder occurrences
are rewritten; every other character, including stray `<` and `>`, is
copied. -/
def specRewF : Nat → List Char → List Char
  | 0, l => l
  | _ + 1, [] => []
  | fuel + 1, c :: rest =>
    if c = '<' then
      let ident := rest.takeWhile Char.isAlphanum
      if ident ≠ [] ∧ (rest.drop ident.length).head? = some '>' then
        '$' :: '{' :: (ident ++ '}' :: specRewF fuel (rest.drop (ident.length + 1)))
      else c :: specRewF fuel rest
    else c :: specRewF fuel rest

/-- The spec-described placeholder rewrite on a `String`. -/
def specRewriteStr (s : String) : String := String.mk (specRewF s.data.length s.data)

/-- A step text is placeholder-well-formed when every `<` opens a placeholder
`<ident>` with a nonempty alphanumeric identifier and `>` occurs only as a
placeholder terminator (fuel-driven scan; exhausted fuel counts as not
well-formed, and is unreachable when the fuel is the list length). -/
def wfF : Nat → List Char → Bool
  | 0, _ => false
  | _ + 1, [] => true
  | fuel + 1, c :: rest =>
    if c = '<' then
      let ident := rest.takeWhile Char.isAlphanum
      decide (ident ≠ []) && ((rest.drop ident.length).head? == some '>')
        && wfF fuel (rest.drop (ident.length + 1))
    else if c = '>' then false
    else wfF fuel rest

/-- Placeholder-well-formedness of a character list. -/
def wfPlaceholdersB (l : List Char) : Bool := wfF l.length l

/-- The keyword stub described by the spec for the create branch: the
canonical text as the keyword name, an arguments declaration iff an argument
variable was produced, and a body line failing with
`Keyword "<text>" Not Implemented Yet`, followed by a blank line. -/
def keywordStub (tr : Tr) (k : String) (v : Option String) : List Line :=
  [Line.str k] ++
  (match v with
   | some a => [Line.fields ["", "[" ++ tr.key "arguments" ++ "]", a]]
   | none => []) ++
  [Line.fields ["", "Fail", "Keyword \"" ++ k ++ "\" Not Implemented Yet"], Line.str ""]

/-- The argument variable `add_step` produces for a step (fixed references
from the Table Transformer). -/
def argVarOf (step : GStep) : Option String :=
  match step.docString with
  | some _ => some "${DocString}"
  | none =>
    match step.dataTable with
    | some _ => some "@{DataTable}"
    | none => none

/-- The emitted call text of a step: the placeholder-rewritten text, prefixed
with the translated verb unless the step keyword is the continuation `'* '`. -/
def callText (tr : Tr) (step : GStep) : String :=
  if step.keyword = "* " then rewriteText step.text
  else tr.keyD step.keyword step.keyword ++ rewriteText step.text

/-- Characters with a special meaning in Python regular expressions; the
segment model of `reMatch` is exact for patterns free of them (apart from the
`(.*)` wildcards the substitution itself introduces). -/
def regexMetaChars : List Char := ['.', '^', '$', '*', '+', '?', '(', ')', '[', ']', '{', '}', '\\', '|']

/-- Whether an `Except` computation succeeded. -/
def isOkE {α : Type} : Except String α → Bool
  | .ok _ => true
  | .error _ => false

/-! ### Concrete fixtures used by the claim theorems -/

/-- An existing resource file with one parameterized keyword. -/
def demoResourceLines : List String :=
  ["*** Keywords ***", "Given user ${name} logs in", "    Log    message"]

/-- A plain `Given` step. -/
def givenStep : GStep := { keyword := "Given ", text := "a user exists" }

/-- A step whose text contains a stray `<` that is not part of a placeholder. -/
def strayStep : GStep := { keyword := "Given ", text := "a < b" }

/-- An outline step with one placeholder. -/
def amountStep : GStep := { keyword := "Given ", text := "the value is <amount>" }

/-- Examples block `E1`: header `a`, three data rows. -/
def exE1 : GExample :=
  { name := "E1", locationLine := 5, tableHeader := ⟨[⟨"a"⟩]⟩
    tableBody := [⟨[⟨"x"⟩]⟩, ⟨[⟨"y"⟩]⟩, ⟨[⟨"z"⟩]⟩] }

/-- An unnamed examples block at source line 10: header `a`, two data rows
(the second cell empty). -/
def exL10 : GExample :=
  { name := "", locationLine := 10, tableHeader := ⟨[⟨"a"⟩]⟩
    tableBody := [⟨[⟨"u"⟩]⟩, ⟨[⟨""⟩]⟩] }

/-- A scenario outline with two examples blocks of three and two data rows. -/
def scOutline2 : Scenario :=
  { keyword := "Scenario Outline", name := "S"
    steps := [{ keyword := "Given ", text := "the value is <a>" }]
    examples := [exE1, exL10] }

/-- A scenario outline with no examples block at all. -/
def scNoExamples : Scenario :=
  { keyword := "Scenario Outline", name := "N"
    steps := [{ keyword := "Given ", text := "lone step" }]
    examples := [] }

/-- The examples block of `scMissingCol`: its header lacks the referenced
placeholder `v`. -/
def exMissing : GExample :=
  { name := "E", locationLine := 3, tableHeader := ⟨[⟨"w"⟩]⟩, tableBody := [⟨[⟨"1"⟩]⟩] }

/-- A scenario outline referencing placeholder `v` that its examples header
does not provide. -/
def scMissingCol : Scenario :=
  { keyword := "Scenario Outline", name := "SO"
    steps := [{ keyword := "Given ", text := "has <v>" }]
    examples := [exMissing] }

/-- A one-column, one-row data table. -/
def demoTable : DataTable := ⟨[⟨[⟨"h"⟩]⟩, ⟨[⟨"1"⟩]⟩]⟩

/-- The result of `process_datatable` on `demoTable` from empty output. -/
def demoTableOut : List Line × String := (datatableLines ["h"] [["1"]], "@{DataTable}")

/-! ### Helper lemmas -/

/-- One stub-loop iteration appends exactly the spec-described stub block. -/
theorem stubLoopBody_eq (tr : Tr) (acc : List Line) (p : String × Option String) :
    stubLoopBody tr acc p = acc ++ keywordStub tr p.1 p.2 := by
  cases p with
  | mk k v => cases v <;> simp [stubLoopBody, keywordStub]

/-- The stub-writing loop emits one stub block per registry entry, in order. -/
theorem stubLoop_eq_flatMap (tr : Tr) (seen : SeenSteps) :
    ∀ acc : List Line,
      seen.foldl (stubLoopBody tr) acc = acc ++ seen.flatMap fun p => keywordStub tr p.1 p.2 := by
  induction seen with
  | nil => simp
  | cons p ps ih =>
    intro acc
    simp [List.foldl_cons, stubLoopBody_eq, ih (acc ++ keywordStub tr p.1 p.2)]

/-- Every template collected from an existing resource pairs a keyword with
the pattern obtained from it by the placeholder substitution. -/
theorem readKeywords_snd (tr : Tr) (lines : List String) :
    ∀ p ∈ _read_keywords_from_resource tr lines, p.2 = substPlaceholders p.1 := by
  have aux : ∀ (ls : List String) (acc : List (String × String) × Bool),
      (∀ p ∈ acc.1, p.2 = substPlaceholders p.1) →
      ∀ p ∈ (ls.foldl (readKeywordsStep tr) acc).1, p.2 = substPlaceholders p.1 := by
    intro ls
    induction ls with
    | nil => intro acc h; simpa using h
    | cons l ls ih =>
      intro acc h
      rw [List.foldl_cons]
      apply ih
      intro p hp
      unfold readKeywordsStep at hp
      split at hp
      · exact h p hp
      · split at hp
        · split at hp
          · rcases List.mem_append.mp hp with h1 | h2
            · exact h p h1
            · simp at h2
              rw [h2]
          · exact h p hp
        · split at hp
          · exact h p hp
          · exact h p hp
  exact aux lines ([], false) (by simp)

/-! ### Claim theorems -/

/-- C1: a Step Registry entry is classified as already implemented iff its
canonical text equals some collected keyword literal or `re.match`es the
pattern obtained from that literal by replacing every `${identifier}`
placeholder with a wildcard capture; with the existing literal
`Given user ${name} logs in`, the canonical text `Given user Alice logs in`
is classified as satisfied and `Given user Alice logs out` as missing. -/
theorem c1_template_matching :
    (∀ (tr : Tr) (lines : List String) (k : String),
        isImplemented (_read_keywords_from_resource tr lines) k = true ↔
          ∃ p ∈ _read_keywords_from_resource tr lines,
            k = p.1 ∨ reMatch (substPlaceholders p.1) k = true) ∧
    isImplemented (_read_keywords_from_resource trEn demoResourceLines)
      "Given user Alice logs in" = true ∧
    isImplemented (_read_keywords_from_resource trEn demoResourceLines)
      "Given user Alice logs out" = false := by
  refine ⟨?_, by decide, by decide⟩
  intro tr lines k
  rw [isImplemented, List.any_eq_true]
  constructor
  · rintro ⟨p, hp, hcond⟩
    refine ⟨p, hp, ?_⟩
    rw [← readKeywords_snd tr lines p hp]
    simpa [Bool.or_eq_true, beq_iff_eq] using hcond
  · rintro ⟨p, hp, hcond⟩
    refine ⟨p, hp, ?_⟩
    rw [← readKeywords_snd tr lines p hp] at hcond
    simpa [Bool.or_eq_true, beq_iff_eq] using hcond

/-- C2: when the resource file exists, the reconcile branch only reads it and
prints a report; it never writes any file content. -/
theorem c2_reconcile_never_writes (tr : Tr) (fn : String) (content : List String)
    (lang : String) (rs : Option (List String)) (ts : String) (seen : SeenSteps) :
    (generate_robot_script_resource tr fn (some content) lang rs ts seen).written = none :=
  rfl

/-- C6: when the resource file is absent, the created resource consists of
the fixed header followed by, for every Step Registry entry in insertion
order, a keyword stub (canonical text as name, arguments declaration iff an
argument variable was produced, failing body naming the keyword). -/
theorem c6_create_resource_stubs (tr : Tr) (fn lang : String) (rs : Option (List String))
    (ts : String) (seen : SeenSteps) :
    generate_robot_script_resource tr fn none lang rs ts seen =
      { report := []
        written := some (resourceHeaderLines tr lang rs ts ++
          seen.flatMap fun p => keywordStub tr p.1 p.2) } := by
  simp [generate_robot_script_resource, createResourceLines, stubLoop_eq_flatMap]

/-- C3 counterexample: for the step `Given a user exists` (no continuation
marker) the Step Registry key is the bare placeholder-rewritten text, not the
translated-verb-prefixed text the claim predicts. -/
theorem c3_counterexample :
    add_step trEn [] [] givenStep =
      .ok ([Line.fields ["", "Given a user exists"]], [("a user exists", none)]) ∧
    ("a user exists" : String) ≠ trEn.keyD "Given " "Given " ++ rewriteText "a user exists" := by
  refine ⟨rfl, by decide⟩

/-- C3 (amended): the canonical text registered in the Step Registry is the
placeholder-rewritten text for every step keyword (continuation or not); the
translated verb (falling back to the literal keyword) appears only in the
emitted call line. -/
theorem c3_canonical_registry_key (tr : Tr) (out : List Line) (seen : SeenSteps)
    (step : GStep) (out' : List Line) (seen' : SeenSteps)
    (h : add_step tr out seen step = .ok (out', seen')) :
    seen' = (if seen.any (fun p => p.1 == rewriteText step.text) then seen
             else seen ++ [(rewriteText step.text, argVarOf step)]) ∧
    out'.getLast? = some (Line.fields (["", callText tr step] ++ (argVarOf step).toList)) := by
  by_cases hkw : step.keyword = "* " <;>
  · cases hds : step.docString with
    | some ds =>
      simp only [add_step, argLinesAndVar, hds, process_docstring, hkw,
        if_pos, if_neg, if_true, if_false, reduceIte] at h
      rw [Except.ok.injEq, Prod.mk.injEq] at h
      obtain ⟨h1, h2⟩ := h
      subst h1; subst h2
      refine ⟨by simp [argVarOf, hds], ?_⟩
      simp [argVarOf, hds, callText, hkw, List.append_assoc, List.getLast?_concat]
    | none =>
      cases hdt : step.dataTable with
      | some dtab =>
        cases hrows : dtab.rows with
        | nil =>
          simp [add_step, argLinesAndVar, hdt, hds, process_datatable,
            process_datatable_rows, hrows, generate_datatable_as_list_of_dict] at h
        | cons r rs =>
          simp only [add_step, argLinesAndVar, hdt, hds, process_datatable,
            process_datatable_rows, hrows, List.map_cons,
            generate_datatable_as_list_of_dict, hkw, if_true, if_false, reduceIte] at h
          rw [Except.ok.injEq, Prod.mk.injEq] at h
          obtain ⟨h1, h2⟩ := h
          subst h1; subst h2
          refine ⟨by simp [argVarOf, hds, hdt], ?_⟩
          simp [argVarOf, hds, hdt, callText, hkw, List.append_assoc,
            List.getLast?_concat]
      | none =>
        simp only [add_step, argLinesAndVar, hdt, hds, hkw, if_true, if_false,
          reduceIte] at h
        rw [Except.ok.injEq, Prod.mk.injEq] at h
        obtain ⟨h1, h2⟩ := h
        subst h1; subst h2
        refine ⟨by simp [argVarOf, hds, hdt], ?_⟩
        simp [argVarOf, hds, hdt, callText, hkw, List.getLast?_concat]

/-- C3 witness: the amended statement instantiated at the concrete step
`Given a user exists` on an empty registry. -/
theorem c3_witness :
    ([("a user exists", (none : Option String))] =
      (if (([] : SeenSteps).any (fun p => p.1 == rewriteText givenStep.text)) then ([] : SeenSteps)
       else [] ++ [(rewriteText givenStep.text, argVarOf givenStep)])) ∧
    ([Line.fields ["", "Given a user exists"]] : List Line).getLast? =
      some (Line.fields (["", callText trEn givenStep] ++ (argVarOf givenStep).toList)) :=
  c3_canonical_registry_key trEn [] [] givenStep
    [Line.fields ["", "Given a user exists"]] [("a user exists", none)] rfl

/-- When some referenced placeholder is absent from the example's header, the
per-example processing raises (`raise RuntimeWarning(...)`), i.e. returns an
error. -/
theorem processOneExample_missing (tr : Tr) (scName : String) (scTags : List Tag)
    (varNames : List String) (tc : List Line) (ex : GExample) {v : String}
    (hv : v ∈ varNames) (hnc : v ∉ headerOf ex) :
    ∃ msg, processOneExample tr scName scTags varNames tc ex = .error msg := by
  cases hf : varNames.find? (fun w => !((headerOf ex).contains w)) with
  | none =>
    exfalso
    have hall := List.find?_eq_none.mp hf v hv
    simp [List.contains] at hall
    exact hnc hall
  | some w =>
    exact ⟨"Example " ++ ex.name ++ " missing column " ++ w, by
      simp only [processOneExample, hf]⟩

/-- An example with a missing placeholder column makes the whole examples
loop fail. -/
theorem processExamples_missing (tr : Tr) (scName : String) (scTags : List Tag)
    (varNames : List String) {ex : GExample} {v : String}
    (hv : v ∈ varNames) (hnc : v ∉ headerOf ex) :
    ∀ (es : List GExample) (tc : List Line) (hdr : Option (List String)), ex ∈ es →
      ∃ msg, processExamples tr scName scTags varNames tc hdr es = .error msg := by
  intro es
  induction es with
  | nil => intro tc hdr h; cases h
  | cons e rest ih =>
    intro tc hdr hmem
    rcases List.mem_cons.mp hmem with rfl | hm
    · obtain ⟨msg, hmsg⟩ :=
        processOneExample_missing tr scName scTags varNames tc ex hv hnc
      exact ⟨msg, by simp [processExamples, hmsg]⟩
    · cases hone : processOneExample tr scName scTags varNames tc e with
      | error msg => exact ⟨msg, by simp [processExamples, hone]⟩
      | ok p =>
        obtain ⟨tc', h⟩ := p
        obtain ⟨msg, hmsg⟩ := ih tc' (some h) hm
        exact ⟨msg, by simp [processExamples, hone, hmsg]⟩

/-- C4 counterexample: for a concrete outline whose examples header lacks the
referenced placeholder `v`, processing raises and aborts — it does not
continue to emit the remaining rows or the synthesized keyword. -/
theorem c4_counterexample :
    process_scenario_outline trEn {} scMissingCol = .error "Example E missing column v" :=
  rfl

/-- C4 (amended): a step placeholder absent from an example block's header
makes `process_scenario_outline` raise: the scenario outline's processing
aborts with an error (the `RuntimeWarning` is raised, not printed), so the
remaining examples and the synthesized keyword are not emitted. -/
theorem c4_missing_placeholder_aborts (tr : Tr) (st : GState) (sc : Scenario)
    {ex : GExample} {v : String} (hex : ex ∈ sc.examples)
    (hv : v ∈ collectVars sc.steps) (hnc : v ∉ headerOf ex) :
    isOkE (process_scenario_outline tr st sc) = false := by
  obtain ⟨msg, hmsg⟩ :=
    processExamples_missing tr sc.name sc.tags (collectVars sc.steps) hv hnc
      sc.examples st.test_cases_lines none hex
  simp [process_scenario_outline, hmsg, isOkE]

/-- C4 witness: the amended statement at the concrete failing outline. -/
theorem c4_witness : isOkE (process_scenario_outline trEn {} scMissingCol) = false :=
  @c4_missing_placeholder_aborts trEn {} scMissingCol exMissing "v"
    (by decide) (by decide) (by decide)

/-- The Test Cases lines produced for `scOutline2`: per examples block a
`[Template]` line and its data rows, but no test-case-name line. -/
def c5TestCases : List Line :=
  [Line.fields ["", "[Template]", "Scenario Outline S"],
   Line.fields ["", "x"], Line.fields ["", "y"], Line.fields ["", "z"], Line.str "",
   Line.fields ["", "[Template]", "Scenario Outline S"],
   Line.fields ["", "u"], Line.fields ["", "${EMPTY}"], Line.str ""]

/-- C5: evaluating the outline with two examples blocks (three and two data
rows).  Two templated row groups and exactly one synthesized keyword are
produced, but the computed test-case names (`S: E1`, `S example line 10`)
never appear: the append that would emit them is commented out in the
source, so no test case is introduced by its name. -/
theorem c5_outline_expansion :
    process_scenario_outline trEn {} scOutline2 = .ok
      { settings_lines := []
        test_cases_lines := c5TestCases
        keywords_lines := [Line.str "Scenario Outline S",
          Line.fields ["", "[Arguments]", "${a}"],
          Line.fields ["", "Given the value is ${a}"], Line.str ""]
        seen_steps := [("the value is ${a}", none)]
        background_available := false } ∧
    Line.str (outlineTestCaseName "S" exE1) ∉ c5TestCases ∧
    Line.str (outlineTestCaseName "S" exL10) ∉ c5TestCases := by
  refine ⟨rfl, by decide, by decide⟩

/-- C10: both table transformations return fixed variable references —
`@{DataTable}` with a rebinding of `${DataTable}`, and `${DocString}` — so
any two table-bearing (or doc-string-bearing) steps reuse the same variable
name. -/
theorem c10_fixed_variable_names :
    (∀ (output : List Line) (dtab : DataTable) (r : List Line × String),
        process_datatable output dtab = .ok r →
          r.2 = "@{DataTable}" ∧
          ∃ rest, r.1 = output ++ Line.fields ["", "${DataTable}=", "Create List"] :: rest) ∧
    (∀ (output : List Line) (ds : DocString),
        (process_docstring output ds).2 = "${DocString}" ∧
        ∃ rest, (process_docstring output ds).1 =
          output ++ Line.fields ["", "${DocString}=", "Catenate", "SEPARATOR=\\n"] :: rest) ∧
    (∀ (o1 : List Line) (d1 : DataTable) (r1 : List Line × String)
       (o2 : List Line) (d2 : DataTable) (r2 : List Line × String),
        process_datatable o1 d1 = .ok r1 → process_datatable o2 d2 = .ok r2 →
        r1.2 = r2.2) := by
  have h1 : ∀ (output : List Line) (dtab : DataTable) (r : List Line × String),
      process_datatable output dtab = .ok r →
        r.2 = "@{DataTable}" ∧
        ∃ rest, r.1 = output ++ Line.fields ["", "${DataTable}=", "Create List"] :: rest := by
    intro output dtab r h
    cases hrows : dtab.rows with
    | nil =>
      simp [process_datatable, process_datatable_rows, hrows,
        generate_datatable_as_list_of_dict] at h
    | cons rr rs =>
      simp only [process_datatable, process_datatable_rows, hrows, List.map_cons,
        generate_datatable_as_list_of_dict] at h
      rw [Except.ok.injEq] at h
      subst h
      exact ⟨rfl, ⟨_, rfl⟩⟩
  refine ⟨h1, ?_, ?_⟩
  · intro output ds
    exact ⟨rfl, ⟨_, rfl⟩⟩
  · intro o1 d1 r1 o2 d2 r2 ha hb
    rw [(h1 o1 d1 r1 ha).1, (h1 o2 d2 r2 hb).1]

/-- C10 witness: the theorem applied to a concrete one-column table and a
concrete doc-string. -/
theorem c10_witness :
    demoTableOut.2 = "@{DataTable}" ∧
    (process_docstring [] ⟨"x"⟩).2 = "${DocString}" :=
  ⟨(c10_fixed_variable_names.1 [] demoTable demoTableOut rfl).1,
   (c10_fixed_variable_names.2.1 [] ⟨"x"⟩).1⟩

/-- A successful per-example processing returns that example's header. -/
theorem processOneExample_header (tr : Tr) (scName : String) (scTags : List Tag)
    (varNames : List String) (tc : List Line) (ex : GExample) (tc' : List Line)
    (h : List String)
    (hok : processOneExample tr scName scTags varNames tc ex = .ok (tc', h)) :
    h = headerOf ex := by
  simp only [processOneExample] at hok
  split at hok
  · exact absurd hok (by simp)
  · split at hok
    · exact absurd hok (by simp)
    · rw [Except.ok.injEq, Prod.mk.injEq] at hok
      exact hok.2.symm

/-- A successful examples loop either saw no example (the loop variable is
unchanged) or leaves the header of the last examples block in the loop
variable. -/
theorem processExamples_last (tr : Tr) (scName : String) (scTags : List Tag)
    (varNames : List String) :
    ∀ (es : List GExample) (tc : List Line) (hdr : Option (List String))
      (r : List Line × Option (List String)),
      processExamples tr scName scTags varNames tc hdr es = .ok r →
      (es = [] ∧ r = (tc, hdr)) ∨
      ∃ exl, es.getLast? = some exl ∧ r.2 = some (headerOf exl) := by
  intro es
  induction es with
  | nil =>
    intro tc hdr r h
    left
    simp only [processExamples] at h
    rw [Except.ok.injEq] at h
    exact ⟨rfl, h.symm⟩
  | cons e rest ih =>
    intro tc hdr r h
    right
    simp only [processExamples] at h
    cases hone : processOneExample tr scName scTags varNames tc e with
    | error msg =>
      rw [hone] at h
      exact absurd h (by simp)
    | ok p =>
      obtain ⟨tc1, h1⟩ := p
      rw [hone] at h
      have hh1 : h1 = headerOf e :=
        processOneExample_header tr scName scTags varNames tc e tc1 h1 hone
      rcases ih tc1 (some h1) r h with ⟨hnil, hr⟩ | ⟨exl, hl, h2⟩
      · subst hnil
        refine ⟨e, rfl, ?_⟩
        rw [hr, hh1]
      · refine ⟨exl, ?_, h2⟩
        cases rest with
        | nil => simp at hl
        | cons b bs => rw [List.getLast?_cons_cons]; exact hl

/-- The argument-handling phase of `add_step` only appends to the output. -/
theorem argLinesAndVar_extends (output : List Line) (step : GStep)
    (o1 : List Line) (av : Option String)
    (h : argLinesAndVar output step = .ok (o1, av)) :
    ∃ t, o1 = output ++ t := by
  cases hds : step.docString with
  | some ds =>
    simp only [argLinesAndVar, hds, process_docstring] at h
    rw [Except.ok.injEq, Prod.mk.injEq] at h
    exact ⟨docStringLines ds.content, h.1.symm⟩
  | none =>
    cases hdt : step.dataTable with
    | some dtab =>
      cases hrows : dtab.rows with
      | nil =>
        simp [argLinesAndVar, hds, hdt, process_datatable, process_datatable_rows,
          hrows, generate_datatable_as_list_of_dict] at h
      | cons rr rs =>
        simp only [argLinesAndVar, hds, hdt, process_datatable,
          process_datatable_rows, hrows, List.map_cons,
          generate_datatable_as_list_of_dict] at h
        rw [Except.ok.injEq, Prod.mk.injEq] at h
        exact ⟨_, h.1.symm⟩
    | none =>
      simp only [argLinesAndVar, hds, hdt] at h
      rw [Except.ok.injEq, Prod.mk.injEq] at h
      exact ⟨[], by rw [← h.1, List.append_nil]⟩

/-- `add_step` only appends to the caller's section. -/
theorem add_step_extends (tr : Tr) (out : List Line) (seen : SeenSteps) (step : GStep)
    (out' : List Line) (seen' : SeenSteps)
    (h : add_step tr out seen step = .ok (out', seen')) :
    ∃ t, out' = out ++ t := by
  cases hav : argLinesAndVar out step with
  | error e => simp [add_step, hav] at h
  | ok p =>
    obtain ⟨o1, av⟩ := p
    obtain ⟨t1, ht1⟩ := argLinesAndVar_extends out step o1 av hav
    simp only [add_step, hav] at h
    cases av with
    | some v =>
      rw [Except.ok.injEq, Prod.mk.injEq] at h
      exact ⟨_, by rw [← h.1, ht1, List.append_assoc]⟩
    | none =>
      rw [Except.ok.injEq, Prod.mk.injEq] at h
      exact ⟨_, by rw [← h.1, ht1, List.append_assoc]⟩

/-- Folding `add_step` over a step list only appends to the section. -/
theorem foldlM_addStep_extends (tr : Tr) :
    ∀ (steps : List GStep) (out : List Line) (seen : SeenSteps)
      (r : List Line × SeenSteps),
      steps.foldlM (addStepFold tr) (out, seen) = .ok r → ∃ t, r.1 = out ++ t := by
  intro steps
  induction steps with
  | nil =>
    intro out seen r h
    rw [List.foldlM_nil] at h
    have h' : (Except.ok (out, seen) : Except String (List Line × SeenSteps)) = .ok r := h
    rw [Except.ok.injEq] at h'
    exact ⟨[], by rw [← h', List.append_nil]⟩
  | cons s ss ih =>
    intro out seen r h
    rw [List.foldlM_cons] at h
    cases hstep : addStepFold tr (out, seen) s with
    | error e =>
      rw [hstep] at h
      exact Except.noConfusion
        (h : (Except.error e : Except String (List Line × SeenSteps)) = .ok r)
    | ok p =>
      rw [hstep] at h
      obtain ⟨o1, s1⟩ := p
      have h' : ss.foldlM (addStepFold tr) (o1, s1) = .ok r := h
      obtain ⟨t1, ht1⟩ := add_step_extends tr out seen s o1 s1 hstep
      obtain ⟨t2, ht2⟩ := ih o1 s1 r h'
      exact ⟨t1 ++ t2, by rw [ht2, ht1, List.append_assoc]⟩

/-- C9: with no examples block the loop variable `header` stays unbound and
the synthesized-keyword emission fails with the unbound-variable error; with
at least one examples block, the synthesized keyword's `[Arguments]` line
lists exactly the header columns of the last examples block, in that block's
column order. -/
theorem c9_arguments_from_last_block (tr : Tr) (st : GState) (sc : Scenario) :
    (sc.examples = [] →
      process_scenario_outline tr st sc = .error "NameError: name header is not defined") ∧
    (∀ (st' : GState) (exl : GExample),
      process_scenario_outline tr st sc = .ok st' → sc.examples.getLast? = some exl →
      ∃ pre tail, st'.keywords_lines = pre ++ argumentsLine tr (headerOf exl) :: tail) := by
  constructor
  · intro h
    simp [process_scenario_outline, h, processExamples]
  · intro st' exl hok hlast
    cases hdesc : sc.description with
    | some d =>
      simp only [process_scenario_outline, hdesc] at hok
      split at hok
      · exact Except.noConfusion hok
      · rename_i x tc0 hdrOpt hpe
        cases hdrOpt with
        | none => exact Except.noConfusion hok
        | some header =>
          dsimp only at hok
          split at hok
          · exact Except.noConfusion hok
          · rename_i kws2 seen2 hfold
            rw [Except.ok.injEq] at hok
            rcases processExamples_last tr sc.name sc.tags (collectVars sc.steps)
                sc.examples st.test_cases_lines none (tc0, some header) hpe with
              ⟨hnil, hr⟩ | ⟨exl', hl', h2⟩
            · rw [hnil] at hlast
              simp at hlast
            · have hexl : exl' = exl := by
                rw [hl'] at hlast
                exact Option.some.inj hlast
              subst hexl
              have hhd : header = headerOf exl' := by
                simpa using h2
              subst hhd
              obtain ⟨t, ht⟩ := foldlM_addStep_extends tr sc.steps _ _ _ hfold
              have ht' : kws2 = _ ++ t := ht
              have hkl : st'.keywords_lines = kws2 ++ [Line.str ""] := by rw [← hok]
              refine ⟨st.keywords_lines ++ Line.str (outlineKeywordName tr sc.name) ::
                  documentationLines tr d,
                (if st.background_available then [Line.fields ["", tr.key "background"]]
                 else []) ++ t ++ [Line.str ""], ?_⟩
              rw [hkl, ht']
              by_cases hbg : st.background_available <;> simp [hbg]
    | none =>
      simp only [process_scenario_outline, hdesc] at hok
      split at hok
      · exact Except.noConfusion hok
      · rename_i x tc0 hdrOpt hpe
        cases hdrOpt with
        | none => exact Except.noConfusion hok
        | some header =>
          dsimp only at hok
          split at hok
          · exact Except.noConfusion hok
          · rename_i kws2 seen2 hfold
            rw [Except.ok.injEq] at hok
            rcases processExamples_last tr sc.name sc.tags (collectVars sc.steps)
                sc.examples st.test_cases_lines none (tc0, some header) hpe with
              ⟨hnil, hr⟩ | ⟨exl', hl', h2⟩
            · rw [hnil] at hlast
              simp at hlast
            · have hexl : exl' = exl := by
                rw [hl'] at hlast
                exact Option.some.inj hlast
              subst hexl
              have hhd : header = headerOf exl' := by
                simpa using h2
              subst hhd
              obtain ⟨t, ht⟩ := foldlM_addStep_extends tr sc.steps _ _ _ hfold
              have ht' : kws2 = _ ++ t := ht
              have hkl : st'.keywords_lines = kws2 ++ [Line.str ""] := by rw [← hok]
              refine ⟨st.keywords_lines ++ [Line.str (outlineKeywordName tr sc.name)],
                (if st.background_available then [Line.fields ["", tr.key "background"]]
                 else []) ++ t ++ [Line.str ""], ?_⟩
              rw [hkl, ht']
              by_cases hbg : st.background_available <;> simp [hbg]

/-- C9 witness: the theorem applied to the zero-examples outline and to the
two-block outline (whose last block has header `a`). -/
theorem c9_witness :
    process_scenario_outline trEn {} scNoExamples =
      .error "NameError: name header is not defined" ∧
    ∃ st', process_scenario_outline trEn {} scOutline2 = .ok st' ∧
      ∃ pre tail, st'.keywords_lines = pre ++ argumentsLine trEn (headerOf exL10) :: tail :=
  ⟨(c9_arguments_from_last_block trEn {} scNoExamples).1 rfl,
   ⟨_, rfl, (c9_arguments_from_last_block trEn {} scOutline2).2 _ exL10 rfl rfl⟩⟩

/-- Unfolding of `pyReplaceOpen` at a cons. -/
theorem pyReplaceOpen_cons (c : Char) (cs : List Char) :
    pyReplaceOpen (c :: cs) = (if c = '<' then ['$', '{'] else [c]) ++ pyReplaceOpen cs :=
  rfl

/-- Unfolding of `pyReplaceClose` at a cons. -/
theorem pyReplaceClose_cons (c : Char) (cs : List Char) :
    pyReplaceClose (c :: cs) = (if c = '>' then ['}'] else [c]) ++ pyReplaceClose cs :=
  rfl

/-- `pyReplaceOpen` distributes over append. -/
theorem pyReplaceOpen_append (a b : List Char) :
    pyReplaceOpen (a ++ b) = pyReplaceOpen a ++ pyReplaceOpen b :=
  List.flatMap_append a b _

/-- `pyReplaceClose` distributes over append. -/
theorem pyReplaceClose_append (a b : List Char) :
    pyReplaceClose (a ++ b) = pyReplaceClose a ++ pyReplaceClose b :=
  List.flatMap_append a b _

/-- `.replace('<', '${')` leaves a `<`-free list unchanged. -/
theorem pyReplaceOpen_eq_self {l : List Char} (h : ∀ c ∈ l, c ≠ '<') :
    pyReplaceOpen l = l := by
  induction l with
  | nil => rfl
  | cons c cs ih =>
    rw [pyReplaceOpen_cons, if_neg (h c (List.mem_cons_self c cs)),
      ih fun x hx => h x (List.mem_cons_of_mem _ hx)]
    rfl

/-- `.replace('>', '}')` leaves a `>`-free list unchanged. -/
theorem pyReplaceClose_eq_self {l : List Char} (h : ∀ c ∈ l, c ≠ '>') :
    pyReplaceClose l = l := by
  induction l with
  | nil => rfl
  | cons c cs ih =>
    rw [pyReplaceClose_cons, if_neg (h c (List.mem_cons_self c cs)),
      ih fun x hx => h x (List.mem_cons_of_mem _ hx)]
    rfl

/-- Dropping the `takeWhile` portion leaves the `dropWhile` portion. -/
theorem drop_takeWhile_length (p : Char → Bool) (l : List Char) :
    l.drop (l.takeWhile p).length = l.dropWhile p := by
  induction l with
  | nil => rfl
  | cons c cs ih =>
    by_cases h : p c
    · simp [List.takeWhile_cons, List.dropWhile_cons, h, ih]
    · simp [List.takeWhile_cons, List.dropWhile_cons, h]

/-- Alphanumeric characters are neither `<` nor `>`. -/
theorem alnum_ne_angle {c : Char} (h : c.isAlphanum = true) : c ≠ '<' ∧ c ≠ '>' := by
  constructor <;> intro he <;> subst he <;> simp at h

/-- On placeholder-well-formed texts, the source's two character replacements
agree with the spec-described placeholder rewrite. -/
theorem pyRew_eq_specF : ∀ (fuel : Nat) (l : List Char), wfF fuel l = true →
    pyReplaceClose (pyReplaceOpen l) = specRewF fuel l := by
  intro fuel
  induction fuel with
  | zero => intro l h; exact absurd h (by simp [wfF])
  | succ n ih =>
    intro l h
    cases l with
    | nil => rfl
    | cons c rest =>
      by_cases hc : c = '<'
      · subst hc
        rw [wfF, if_pos rfl] at h
        rw [Bool.and_eq_true, Bool.and_eq_true] at h
        obtain ⟨⟨hne, hgt⟩, hwf⟩ := h
        rw [decide_eq_true_iff] at hne
        rw [beq_iff_eq] at hgt
        rw [drop_takeWhile_length] at hgt
        have halnum : ∀ x ∈ rest.takeWhile Char.isAlphanum, x.isAlphanum = true :=
          fun x hx => List.mem_takeWhile_imp hx
        cases hdpw : rest.dropWhile Char.isAlphanum with
        | nil => rw [hdpw] at hgt; cases hgt
        | cons y tl =>
          rw [hdpw] at hgt
          have hy : y = '>' := by
            have := hgt
            simp at this
            exact this
          subst hy
          have hrest : rest = rest.takeWhile Char.isAlphanum ++ '>' :: tl := by
            conv_lhs => rw [← List.takeWhile_append_dropWhile (p := Char.isAlphanum) (l := rest)]
            rw [hdpw]
          have htl : rest.drop ((rest.takeWhile Char.isAlphanum).length + 1) = tl := by
            rw [← List.drop_drop, drop_takeWhile_length, hdpw]
            rfl
          rw [htl] at hwf
          rw [specRewF, if_pos rfl, if_pos ⟨hne, by rw [drop_takeWhile_length, hdpw]; rfl⟩,
            htl]
          rw [pyReplaceOpen_cons, if_pos rfl]
          conv_lhs => rw [hrest]
          rw [pyReplaceOpen_append,
            pyReplaceOpen_eq_self fun x hx => (alnum_ne_angle (halnum x hx)).1,
            pyReplaceOpen_cons, if_neg (by decide)]
          rw [pyReplaceClose_append, pyReplaceClose_append, pyReplaceClose_append,
            pyReplaceClose_eq_self fun x hx => (alnum_ne_angle (halnum x hx)).2,
            ih tl hwf,
            show pyReplaceClose ['$', '{'] = ['$', '{'] from rfl,
            show pyReplaceClose ['>'] = ['}'] from rfl]
          simp
      · by_cases hgt : c = '>'
        · subst hgt
          rw [wfF, if_neg (by decide), if_pos rfl] at h
          cases h
        · rw [wfF, if_neg hc, if_neg hgt] at h
          rw [specRewF, if_neg hc]
          rw [pyReplaceOpen_cons, if_neg hc]
          rw [show ([c] ++ pyReplaceOpen rest) = c :: pyReplaceOpen rest from rfl]
          rw [pyReplaceClose_cons, if_neg hgt]
          rw [ih rest h]
          rfl

/-- C7 counterexample: the step text `a < b` contains no placeholder, yet
the rendered text rewrites the stray `<` to `${` — the source replaces every
`<` and `>` unconditionally, so "all other characters unchanged" fails. -/
theorem c7_counterexample :
    add_step trEn [] [] strayStep =
      .ok ([Line.fields ["", "Given a $\x7b b"]], [("a $\x7b b", none)]) ∧
    specRewriteStr "a < b" = "a < b" ∧
    ("a $\x7b b" : String) ≠ "a < b" :=
  ⟨rfl, rfl, by decide⟩

/-- C7 (amended): the renderer replaces every `<` with `${` and every `>`
with `}` unconditionally; on texts whose angle brackets all form well-formed
`<ident>` placeholders this coincides with rewriting each placeholder and
leaving all other characters unchanged.  In particular `the value is
<amount>` is rendered as `the value is ${amount}` both in the emitted step
line and in the Step Registry key. -/
theorem c7_placeholder_rewrite :
    (∀ s : String, wfPlaceholdersB s.data = true → rewriteText s = specRewriteStr s) ∧
    add_step trEn [] [] amountStep =
      .ok ([Line.fields ["", "Given the value is ${amount}"]],
           [("the value is ${amount}", none)]) := by
  refine ⟨?_, rfl⟩
  intro s h
  rw [rewriteText, specRewriteStr]
  exact congrArg String.mk (pyRew_eq_specF s.data.length s.data h)

/-- C7 witness: the amended statement at the concrete outline step text. -/
theorem c7_witness :
    rewriteText "the value is <amount>" = specRewriteStr "the value is <amount>" :=
  c7_placeholder_rewrite.1 "the value is <amount>" (by decide)

/-- A `$`-free list is unchanged by the placeholder substitution. -/
theorem substAuxF_eq_self : ∀ (fuel : Nat) {l : List Char}, (∀ c ∈ l, c ≠ '$') →
    substAuxF fuel l = l := by
  intro fuel
  induction fuel with
  | zero => intro l _; rfl
  | succ n ih =>
    intro l h
    cases l with
    | nil => rfl
    | cons c rest =>
      rw [substAuxF, if_neg fun hcon => h c (List.mem_cons_self c rest) hcon.1,
        ih fun x hx => h x (List.mem_cons_of_mem _ hx)]

/-- A `(`-free pattern compiles to all-literal segments. -/
theorem toSegsF_map_lc : ∀ (fuel : Nat) {l : List Char}, (∀ c ∈ l, c ≠ '(') →
    toSegsF fuel l = l.map Seg.lc := by
  intro fuel
  induction fuel with
  | zero => intro l _; rfl
  | succ n ih =>
    intro l h
    cases l with
    | nil => rfl
    | cons c rest =>
      rw [toSegsF, if_neg fun hcon => h c (List.mem_cons_self c rest) hcon.1,
        ih fun x hx => h x (List.mem_cons_of_mem _ hx), List.map_cons]

/-- An all-literal pattern `re.match`es a subject iff the pattern's text is a
prefix of the subject. -/
theorem segsMatch_map_lc : ∀ (l s : List Char),
    segsMatch (l.map Seg.lc) s = true ↔ ∃ t, s = l ++ t := by
  intro l
  induction l with
  | nil =>
    intro s
    constructor
    · intro _; exact ⟨s, rfl⟩
    · intro _; rfl
  | cons c cs ih =>
    intro s
    cases s with
    | nil => simp [segsMatch]
    | cons d s' =>
      rw [List.map_cons]
      rw [show segsMatch (Seg.lc c :: cs.map Seg.lc) (d :: s') =
        (c == d && segsMatch (cs.map Seg.lc) s') from rfl]
      rw [Bool.and_eq_true, beq_iff_eq, ih s']
      constructor
      · rintro ⟨rfl, t, rfl⟩
        exact ⟨t, rfl⟩
      · rintro ⟨t, ht⟩
        injection ht with h1 h2
        exact ⟨h1.symm, t, h2⟩

/-- C8 counterexample: with an existing placeholder-free keyword
`user logs in`, the new canonical text `user logs in quickly` is classified
as satisfied (the reconcile report is empty) although it is not equal to the
literal — `re.match` anchors only at the start, so the match rule does not
collapse to string equality. -/
theorem c8_counterexample :
    (generate_robot_script_resource trEn "fn" (some ["*** Keywords ***", "user logs in"])
      "en" none "ts" [("user logs in quickly", none)]).report = [] ∧
    ("user logs in quickly" : String) ≠ "user logs in" :=
  ⟨rfl, by decide⟩

/-- C8 (amended): for an Existing Keyword Template whose literal contains no
placeholder (and no other regex metacharacter), the match rule collapses to
prefix matching: a canonical text is classified as satisfied by that template
iff the literal is a prefix of it (equality is the special case of an empty
remainder). -/
theorem c8_prefix_collapse (lit k : String)
    (h : ∀ c ∈ lit.data, c ∉ regexMetaChars) :
    isImplemented [(lit, substPlaceholders lit)] k = true ↔
      ∃ t, k.data = lit.data ++ t := by
  have hd : ∀ c ∈ lit.data, c ≠ '$' := fun c hc he => by
    subst he; exact h _ hc (by decide)
  have hp : ∀ c ∈ lit.data, c ≠ '(' := fun c hc he => by
    subst he; exact h _ hc (by decide)
  have hsubst : substPlaceholders lit = lit := by
    rw [substPlaceholders, substAuxF_eq_self _ hd]
  rw [hsubst, isImplemented, List.any_cons, List.any_nil, Bool.or_false]
  show (k == lit || reMatch lit k) = true ↔ ∃ t, k.data = lit.data ++ t
  rw [Bool.or_eq_true, beq_iff_eq, reMatch, toSegs, toSegsF_map_lc _ hp,
    segsMatch_map_lc]
  constructor
  · rintro (rfl | ht)
    · exact ⟨[], by simp⟩
    · exact ht
  · rintro ht
    exact Or.inr ht

/-- C8 witness: the amended statement at the placeholder-free literal
`user logs in` and the extended text `user logs in quickly`. -/
theorem c8_witness :
    isImplemented [("user logs in", substPlaceholders "user logs in")]
      "user logs in quickly" = true :=
  (c8_prefix_collapse "user logs in" "user logs in quickly" (by decide)).mpr
    ⟨(" quickly" : String).data, by decide⟩

end G2RF
